import Mathlib

/-!
Verification development for the event-marker video annotation tool.

The embedding below translates the core of `src/gui.py` (class
`VideoPlayer`): the event-file writer used by `save_event` (which writes
the Python `str()` rendering of the markers dict), the reader
`_read_event_file` (which parses the file with `ast.literal_eval` and
replaces the markers wholesale), the slider-release frame mapping, the
playback-state timer dispatch, the key-event filter, and the
frame-number input handler.

The repository imports `event_manager`, `playback_controller` and `cfg`
modules whose sources are not part of the source tree; the definitions
that depend on them are modelled from the design document and carry a
doc comment starting with `Modelled from the spec:`.

Machine conventions: Python ints are `Int`; Python `round` (banker's
rounding) and `int()` (truncation) on exact rational values are
`pyRound` and `pyTrunc` over `ℚ`; fallible operations return `Option`.
-/

/-- ASCII single quote, written via its code point. -/
def squote : Char := Char.ofNat 39

/-- ASCII left brace, written via its code point. -/
def lbraceChar : Char := Char.ofNat 123

/-- ASCII right brace, written via its code point. -/
def rbraceChar : Char := Char.ofNat 125

/-- ASCII backslash, written via its code point. -/
def bslashChar : Char := Char.ofNat 92

/-- ASCII newline, written via its code point. -/
def nlChar : Char := Char.ofNat 10

/-- Decimal digit character for a value below ten (code point 48 + d). -/
def digitChar (d : Nat) : Char := Char.ofNat (48 + d)

/-- Decimal digit list of a natural number, most significant first,
computed with explicit fuel (`fuel > n` suffices).  This is the digit
sequence Python's `str` prints for a non-negative int. -/
def natDigitsAux : Nat → Nat → List Char
  | 0, _ => []
  | fuel + 1, n =>
    if n < 10 then [digitChar n]
    else natDigitsAux fuel (n / 10) ++ [digitChar (n % 10)]

/-- Decimal digit characters of a natural number. -/
def natDigits (n : Nat) : List Char := natDigitsAux (n + 1) n

/-- Value of a list of decimal digit characters (inverse of `natDigits`). -/
def digitsToNat (ds : List Char) : Nat :=
  ds.foldl (fun a c => 10 * a + (c.toNat - 48)) 0

/-- Characters of Python `str(n)` for an int `n`. -/
def intToChars (n : Int) : List Char :=
  if n < 0 then [Char.ofNat 45] ++ natDigits n.natAbs else natDigits n.natAbs

/-- Characters between the brackets of Python `str` of an int list:
items separated by a comma and a space. -/
def intListItems : List Int → List Char
  | [] => []
  | [x] => intToChars x
  | x :: y :: xs => intToChars x ++ [Char.ofNat 44, Char.ofNat 32] ++ intListItems (y :: xs)

/-- Characters of Python `str` of an int list, e.g. `[120, 340]`. -/
def intListChars (xs : List Int) : List Char :=
  [Char.ofNat 91] ++ intListItems xs ++ [Char.ofNat 93]

/-- Characters of Python `repr` of a simple string key: a single-quoted
literal.  Faithful to Python for keys made of printable ASCII characters
other than the quote and the backslash (see `simpleKey`). -/
def strKeyChars (k : String) : List Char := [squote] ++ k.data ++ [squote]

/-- Characters of one `key: value` entry of the Python `str` of a dict. -/
def entryChars (kv : String × List Int) : List Char :=
  strKeyChars kv.1 ++ [Char.ofNat 58, Char.ofNat 32] ++ intListChars kv.2

/-- Characters between the braces of the Python `str` of a dict:
entries separated by a comma and a space. -/
def entriesChars : List (String × List Int) → List Char
  | [] => []
  | [kv] => entryChars kv
  | kv :: kv2 :: rest => entryChars kv ++ [Char.ofNat 44, Char.ofNat 32] ++ entriesChars (kv2 :: rest)

/-- Characters of Python `str(dict(markers))`, the exact content
`save_event` writes to the event file (gui.py line 435). -/
def markersChars (m : List (String × List Int)) : List Char :=
  [lbraceChar] ++ entriesChars m ++ [rbraceChar]

/-- The event-file content `save_event` writes for a markers mapping. -/
def pyStrMarkers (m : List (String × List Int)) : String :=
  String.mk (markersChars m)

/-- A key whose Python `repr` is the plain single-quoted form modelled by
`strKeyChars`: printable ASCII without single quote or backslash. -/
def simpleKey (k : String) : Bool :=
  k.data.all (fun c => c != squote && c != bslashChar && 32 ≤ c.toNat && c.toNat ≤ 126)

/-! ### A restriction of `ast.literal_eval` to the event-file grammar

`_read_event_file` parses the whole file with `ast.literal_eval`
(gui.py line 359).  The parser below covers the fragment of Python
literals relevant to event files: ints, simple single-quoted strings,
lists of ints, and dicts from strings to int lists (with the whitespace
freedom of the literal grammar at separators).  Literals outside this
fragment (floats, tuples, nested containers, escaped strings, trailing
commas) are not modelled. -/

/-- Drop leading ASCII spaces (literal-grammar whitespace). -/
def skipSpaces (cs : List Char) : List Char := cs.dropWhile (fun c => c == Char.ofNat 32)

/-- Parse a nonempty run of decimal digits as a natural number,
returning the remaining input. -/
def parseUInt (cs : List Char) : Option (Nat × List Char) :=
  let ds := cs.takeWhile (fun c => c.isDigit)
  if ds.isEmpty then none else some (digitsToNat ds, cs.drop ds.length)

/-- Parse an optionally negated decimal int literal. -/
def parseInt (cs : List Char) : Option (Int × List Char) :=
  match cs with
  | [] => none
  | c :: r =>
    if c = Char.ofNat 45 then (parseUInt r).map (fun p => (-(p.1 : Int), p.2))
    else (parseUInt cs).map (fun p => ((p.1 : Int), p.2))

/-- Parse the items of a nonempty int-list literal up to and including
the closing bracket.  `fuel` bounds the number of items. -/
def parseIntListTail : Nat → List Char → Option (List Int × List Char)
  | 0, _ => none
  | fuel + 1, cs =>
    match parseInt cs with
    | none => none
    | some (n, r) =>
      match r with
      | [] => none
      | c :: r2 =>
        if c = Char.ofNat 93 then some ([n], r2)
        else if c = Char.ofNat 44 then
          match parseIntListTail fuel (skipSpaces r2) with
          | some (ns, r3) => some (n :: ns, r3)
          | none => none
        else none

/-- Parse an int-list literal `[...]`. -/
def parseIntList (fuel : Nat) (cs : List Char) : Option (List Int × List Char) :=
  match cs with
  | [] => none
  | c :: r =>
    if c = Char.ofNat 91 then
      match skipSpaces r with
      | [] => none
      | c2 :: r2 => if c2 = Char.ofNat 93 then some ([], r2) else parseIntListTail fuel (skipSpaces r)
    else none

/-- Parse a simple single-quoted string literal (no escape sequences). -/
def parseStrLit (cs : List Char) : Option (String × List Char) :=
  match cs with
  | [] => none
  | c :: r =>
    if c = squote then
      let body := r.takeWhile (fun d => d != squote)
      match r.drop body.length with
      | [] => none
      | d :: r2 => if d = squote then some (String.mk body, r2) else none
    else none

/-- Parse one `key: value` entry of a dict literal. -/
def parseEntry (fuel : Nat) (cs : List Char) : Option ((String × List Int) × List Char) :=
  match parseStrLit cs with
  | none => none
  | some (k, r) =>
    match skipSpaces r with
    | [] => none
    | c :: r2 =>
      if c = Char.ofNat 58 then
        match parseIntList fuel (skipSpaces r2) with
        | some (v, r3) => some ((k, v), r3)
        | none => none
      else none

/-- Parse the entries of a nonempty dict literal up to and including the
closing brace. -/
def parseDictTail : Nat → List Char → Option (List (String × List Int) × List Char)
  | 0, _ => none
  | fuel + 1, cs =>
    match parseEntry fuel cs with
    | none => none
    | some (kv, r) =>
      match r with
      | [] => none
      | c :: r2 =>
        if c = rbraceChar then some ([kv], r2)
        else if c = Char.ofNat 44 then
          match parseDictTail fuel (skipSpaces r2) with
          | some (kvs, r3) => some (kv :: kvs, r3)
          | none => none
        else none

/-- Parse a dict literal from string keys to int lists. -/
def parseDict (fuel : Nat) (cs : List Char) : Option (List (String × List Int) × List Char) :=
  match cs with
  | [] => none
  | c :: r =>
    if c = lbraceChar then
      match skipSpaces r with
      | [] => none
      | c2 :: r2 => if c2 = rbraceChar then some ([], r2) else parseDictTail fuel (skipSpaces r)
    else none

/-- Python literal values of the event-file fragment.  Dict literals in
Python keep the last value for a duplicated key; event files written by
`save_event` come from a dict and never repeat a key, and no theorem
below depends on a duplicated-key input. -/
inductive PyLit where
  | int (n : Int)
  | str (s : String)
  | list (xs : List Int)
  | dict (entries : List (String × List Int))
deriving DecidableEq

/-- Restriction of `ast.literal_eval` to the event-file fragment: the
whole string must be one literal, with surrounding whitespace allowed. -/
def literalEval (s : String) : Option PyLit :=
  let cs := skipSpaces s.data
  let fuel := cs.length + 1
  match cs with
  | [] => none
  | c :: _ =>
    if c = lbraceChar then
      match parseDict fuel cs with
      | some (d, r) => if skipSpaces r = [] then some (PyLit.dict d) else none
      | none => none
    else if c = Char.ofNat 91 then
      match parseIntList fuel cs with
      | some (xs, r) => if skipSpaces r = [] then some (PyLit.list xs) else none
      | none => none
    else if c = squote then
      match parseStrLit cs with
      | some (k, r) => if skipSpaces r = [] then some (PyLit.str k) else none
      | none => none
    else
      match parseInt cs with
      | some (n, r) => if skipSpaces r = [] then some (PyLit.int n) else none
      | none => none

/-! ### Rounding helpers -/

/-- Python `round` on an exact rational value: round to nearest with
ties to the even integer (banker's rounding). -/
def pyRound (x : ℚ) : ℤ :=
  if x - ⌊x⌋ < 1 / 2 then ⌊x⌋
  else if 1 / 2 < x - ⌊x⌋ then ⌊x⌋ + 1
  else if ⌊x⌋ % 2 = 0 then ⌊x⌋ else ⌊x⌋ + 1

/-- Python `int()` on an exact rational value: truncation toward zero. -/
def pyTrunc (x : ℚ) : ℤ := if 0 ≤ x then ⌊x⌋ else -⌊-x⌋

/-! ### Data model -/

/-- Modelled from the spec: the kind of a reversible history record
(`event_manager.py` is absent from the sources); §3 of the design lists
kind, marker key and frame index. -/
inductive OpKind where
  | add
  | remove
deriving DecidableEq

/-- Modelled from the spec: one entry of `undo_stack`/`redo_stack`. -/
structure HistOp where
  kind : OpKind
  key : String
  frame : Int
deriving DecidableEq

/-- Modelled from the spec: the EventLog state owned by `EventManager`
(`event_manager.py` is absent from the sources): `markers` as an
insertion-ordered mapping from key to frame list, plus the two history
stacks. -/
structure EventLog where
  markers : List (String × List Int)
  undo_stack : List HistOp
  redo_stack : List HistOp
deriving DecidableEq

/-- Modelled from the spec: `EventManager.clear()` empties `markers`,
`undo_stack` and `redo_stack` (§4.1). -/
def EventLog.clear (_ : EventLog) : EventLog := ⟨[], [], []⟩

/-- The `VideoPlayer` fields touched by the file I/O paths of gui.py:
the event log, the dirty flag `save_status` and the loaded video path. -/
structure PlayerState where
  log : EventLog
  save_status : Bool
  fname : Option String
deriving DecidableEq

/-- Modelled from the spec: the configuration provider (`cfg.py` is
absent from the sources).  Field defaults follow §3: playback rate 30,
original source rate 119.88. -/
structure Config where
  PLAYBACK_FPS : ℚ := 30
  VIDEO_FPS_ORIGINAL : ℚ := 11988 / 100

/-- The configuration with both rates at their documented defaults. -/
def defaultConfig : Config := {}

/-- Python `sorted` on a list of ints: ascending stable sort. -/
def pySortInts (xs : List Int) : List Int :=
  List.insertionSort (fun a b => a ≤ b) xs

/-! ### `_read_event_file` (gui.py lines 356-366)

The file argument models the `open`/`read` step: `none` when opening or
reading raises an I/O error.  The body evaluates `ast.literal_eval` on
the content, then calls `event_manager.clear()`, then rebuilds `markers`
from `{k: sorted(v) for k, v in data.items()}` and sets
`save_status = True`; every exception is caught and reported.  When the
parsed literal is not a dict, `.items()` raises after `clear()` already
ran, so the handler exits with the log emptied. -/

/-- How a `_read_event_file` call ended. -/
inductive ReadOutcome where
  | ok
  | ioError
  | parseError
  | typeError
deriving DecidableEq

/-- State transition of `VideoPlayer._read_event_file`. -/
def readEventFile (st : PlayerState) (file : Option String) : PlayerState × ReadOutcome :=
  match file with
  | none => (st, ReadOutcome.ioError)
  | some content =>
    match literalEval content with
    | none => (st, ReadOutcome.parseError)
    | some (PyLit.dict d) =>
      ({ st with
          log := { markers := d.map (fun kv => (kv.1, pySortInts kv.2)),
                   undo_stack := [], redo_stack := [] },
          save_status := true }, ReadOutcome.ok)
    | some _ => ({ st with log := st.log.clear }, ReadOutcome.typeError)

/-! ### The task-naming pattern (gui.py lines 406-407)

`save_event` derives the event-file name from
`re.search(r'2025\d{4}-(Pici|Fusillo)-(TS|BBT|Brinkman|Pull).*?-\d{1,2}', fname, re.IGNORECASE)`.
The matcher below compiles exactly this pattern: leftmost match wins;
the alternations have pairwise prefix-incompatible branches, so their
in-order first-match choice needs no backtracking; `.*?` is lazy
(shortest extension first) and does not cross a newline; `\d{1,2}` is
greedy (two digits tried before one). -/

/-- Case-insensitive character comparison (re.IGNORECASE). -/
def lowerEq (c d : Char) : Bool := c.toLower == d.toLower

/-- Match a literal case-insensitively, returning the remaining input. -/
def matchLit : List Char → List Char → Option (List Char)
  | [], cs => some cs
  | _ :: _, [] => none
  | p :: ps, c :: cs => if lowerEq p c then matchLit ps cs else none

/-- Match exactly `k` decimal digits. -/
def matchDigits : Nat → List Char → Option (List Char)
  | 0, cs => some cs
  | _ + 1, [] => none
  | k + 1, c :: cs => if c.isDigit then matchDigits k cs else none

/-- Match one exact character. -/
def matchChar (ch : Char) : List Char → Option (List Char)
  | [] => none
  | c :: cs => if c = ch then some cs else none

/-- Match the first alternative that succeeds, in order. -/
def matchFirst (alts : List (List Char)) (cs : List Char) : Option (List Char) :=
  match alts with
  | [] => none
  | a :: rest =>
    match matchLit a cs with
    | some r => some r
    | none => matchFirst rest cs

/-- Match `-\d{1,2}` with the greedy two-digit attempt first. -/
def matchDashDigits (cs : List Char) : Option (List Char) :=
  match matchChar (Char.ofNat 45) cs with
  | none => none
  | some r =>
    match matchDigits 2 r with
    | some r2 => some r2
    | none => matchDigits 1 r

/-- Match `.*?-\d{1,2}`: lazily extend the dot-star (never across a
newline), preferring the shortest extension. -/
def matchTailFrom (cs : List Char) : Option (List Char) :=
  match matchDashDigits cs with
  | some r => some r
  | none =>
    match cs with
    | [] => none
    | c :: t => if c = nlChar then none else matchTailFrom t

/-- Length of the task-pattern match starting at the head of `cs`, when
there is one. -/
def taskMatchAt (cs : List Char) : Option Nat :=
  let step : Option (List Char) :=
    matchLit (("2025").data) cs >>= matchDigits 4 >>= matchChar (Char.ofNat 45) >>=
      matchFirst [("Pici").data, ("Fusillo").data] >>= matchChar (Char.ofNat 45) >>=
      matchFirst [("TS").data, ("BBT").data, ("Brinkman").data, ("Pull").data] >>=
      matchTailFrom
  step.map (fun r => cs.length - r.length)

/-- Leftmost task-pattern match: start index and length. -/
def taskSearchAux : List Char → Nat → Option (Nat × Nat)
  | [], i =>
    match taskMatchAt [] with
    | some len => some (i, len)
    | none => none
  | c :: t, i =>
    match taskMatchAt (c :: t) with
    | some len => some (i, len)
    | none => taskSearchAux t (i + 1)

/-- `re.search(task pattern, s, re.IGNORECASE)` returning `m.group()`. -/
def taskSearch (s : String) : Option String :=
  (taskSearchAux s.data 0).map (fun p => String.mk ((s.data.drop p.1).take p.2))

/-- `os.path.basename` for POSIX paths: the part after the last slash. -/
def basenameChars (cs : List Char) : List Char :=
  ((cs.reverse.takeWhile (fun c => c != Char.ofNat 47)).reverse)

/-- Root part of `os.path.splitext` on a basename: cut at the last dot,
unless every character before that dot is itself a dot. -/
def splitextRoot (b : List Char) : List Char :=
  match b.reverse.findIdx? (fun c => c == Char.ofNat 46) with
  | none => b
  | some k =>
    let d := b.length - 1 - k
    if (b.take d).all (fun c => c == Char.ofNat 46) then b else b.take d

/-- The derived id of gui.py line 407: the pattern match when there is
one, otherwise the video basename without extension. -/
def derivedFnm (f : String) : String :=
  match taskSearch f with
  | some g => g
  | none => String.mk (splitextRoot (basenameChars f.data))

/-- The event-file name `save_event` writes to (gui.py line 417). -/
def saveEventFileName (f : String) : String :=
  ("event-") ++ derivedFnm f ++ (".txt")

/-! ### `save_event` (gui.py lines 391-440)

Environment inputs: `existing` models the target file before the call
(`none`: no file; `some none`: a file whose read raises; `some (some c)`:
a file with content `c`); `writeOk` tells whether the directory creation
and the write succeed.  The final open-in-system-viewer step (lines
442-448) is outside the modelled range.  Python compares the parsed
existing data with `dict(markers)` by dict equality, which ignores key
order; `pyDictEqMarkers` mirrors that for the duplicate-free mappings a
dict can hold. -/

/-- Python `any(markers.values())`: some key has a nonempty frame list. -/
def anyMarkers (m : List (String × List Int)) : Bool :=
  m.any (fun kv => !kv.2.isEmpty)

/-- Python `==` between the parsed dict and `dict(markers)`:
order-insensitive equality of duplicate-free key-value mappings. -/
def pyDictEqMarkers (d m : List (String × List Int)) : Bool :=
  d.length == m.length && d.all (fun kv => m.lookup kv.1 == some kv.2)

/-- How a `save_event` call ended. -/
inductive SaveOutcome where
  | nothingToSave
  | noVideo
  | nothingNew
  | unchanged (fileName : String)
  | saved (fileName : String) (content : String)
  | ioError
deriving DecidableEq

/-- The existing-file check of gui.py lines 420-431: the target file is
read and parsed, and the save is skipped when the parsed data equals
`dict(markers)`; a read or parse failure falls through to the write
(`except: pass`), and a parsed non-dict literal compares unequal. -/
def saveIdentical (existing : Option (Option String)) (markers : List (String × List Int)) :
    Bool :=
  match existing with
  | some (some c) =>
    match literalEval c with
    | some (PyLit.dict d) => pyDictEqMarkers d markers
    | _ => false
  | _ => false

/-- State transition of `VideoPlayer.save_event`. -/
def save_event (st : PlayerState) (existing : Option (Option String)) (writeOk : Bool) :
    PlayerState × SaveOutcome :=
  if anyMarkers st.log.markers = false then (st, SaveOutcome.nothingToSave)
  else
    match st.fname with
    | none => (st, SaveOutcome.noVideo)
    | some f =>
      if st.save_status = true ∧ st.log.undo_stack.length + st.log.redo_stack.length = 0 then
        (st, SaveOutcome.nothingNew)
      else if saveIdentical existing st.log.markers = true then
        ({ st with
            save_status := true,
            log := { st.log with undo_stack := [], redo_stack := [] } },
          SaveOutcome.unchanged (saveEventFileName f))
      else if writeOk then
        ({ st with
            save_status := true,
            log := { st.log with undo_stack := [], redo_stack := [] } },
          SaveOutcome.saved (saveEventFileName f) (pyStrMarkers st.log.markers))
      else (st, SaveOutcome.ioError)

/-! ### Slider release (gui.py lines 317-320) -/

/-- The slider state the release handler touches. -/
structure SliderUi where
  is_slider_pressed : Bool
  slider_value : Int
deriving DecidableEq

/-- State transition of `VideoPlayer.slider_released`: clear the pressed
flag and compute the frame passed to `jump_to_frame`, which is
`round(slider_value * VIDEO_FPS_ORIGINAL / 1000)`. -/
def slider_released (cfg : Config) (ui : SliderUi) : SliderUi × Int :=
  (⟨false, ui.slider_value⟩,
    pyRound ((ui.slider_value : ℚ) * cfg.VIDEO_FPS_ORIGINAL / 1000))

/-! ### Playback-state change (gui.py lines 264-270) -/

/-- Transport states of the media backend. -/
inductive PlaybackState where
  | playing
  | paused
  | stopped
deriving DecidableEq

/-- Command issued to the position-polling timer. -/
inductive TimerCmd where
  | start (intervalMs : Int)
  | stop
deriving DecidableEq

/-- State transition of `VideoPlayer.on_playback_state_changed`: the
play-button glyph and the timer command.  The timer interval is
`int(1000 / PLAYBACK_FPS)` milliseconds. -/
def on_playback_state_changed (cfg : Config) (s : PlaybackState) : String × TimerCmd :=
  if s = PlaybackState.playing then
    (("⏸"), TimerCmd.start (pyTrunc (1000 / cfg.PLAYBACK_FPS)))
  else (("▶"), TimerCmd.stop)

/-! ### Application event filter (gui.py lines 291-295) -/

/-- The event types the filter distinguishes. -/
inductive QEventKind where
  | keyPress
  | other
deriving DecidableEq

/-- `VideoPlayer.eventFilter`: first component is whether
`keyPressEvent` (hence `KeyHandler.handle_key_press`) is invoked, second
whether the filter swallows the event (returns True). -/
def eventFilter (frame_editing : Bool) (ev : QEventKind) : Bool × Bool :=
  if ev = QEventKind.keyPress ∧ frame_editing = false then (true, true)
  else (false, false)

/-! ### Frame-number input (gui.py lines 499-514) -/

/-- The widget state `jump_to_frame_from_input` touches. -/
structure FrameEditUi where
  frame_editing : Bool
  input_visible : Bool
  label_visible : Bool
deriving DecidableEq

/-- Commands the input handler sends to the playback side. -/
inductive PlayerAction where
  | play
  | jumpToFrame (n : Int)
deriving DecidableEq

/-- Python `int(text)` on the input text: optional surrounding spaces,
an optional sign, then decimal digits (digit-group underscores are not
modelled).  `none` models the `ValueError` path. -/
def pyIntOfString (text : String) : Option Int :=
  let cs := ((text.data.dropWhile (fun c => c == Char.ofNat 32)).reverse.dropWhile
      (fun c => c == Char.ofNat 32)).reverse
  match cs with
  | [] => none
  | c :: r =>
    if c = Char.ofNat 45 then
      if r ≠ [] ∧ r.all (fun d => d.isDigit) then some (-(digitsToNat r : Int)) else none
    else if c = Char.ofNat 43 then
      if r ≠ [] ∧ r.all (fun d => d.isDigit) then some ((digitsToNat r : Int)) else none
    else if cs.all (fun d => d.isDigit) then some ((digitsToNat cs : Int)) else none

/-- State transition of `VideoPlayer.jump_to_frame_from_input`: the
`try` body resumes playback on empty input, jumps on a parsed frame
number, and reports a `ValueError` otherwise; the `finally` block always
leaves editing mode, hides the input box and shows the frame label. -/
def jump_to_frame_from_input (_ui : FrameEditUi) (text : String) :
    FrameEditUi × List PlayerAction :=
  (⟨false, false, true⟩,
    if text.isEmpty then [PlayerAction.play]
    else
      match pyIntOfString text with
      | some n => [PlayerAction.jumpToFrame n]
      | none => [])

/-! ### FrameClock (spec §4.2)

`playback_controller.py` is absent from the sources; the two pure
conversions are modelled from the spec. -/

/-- Modelled from the spec: `time_to_frame(position_ms, fps) =
round(position_ms * fps / 1000)`. -/
def time_to_frame (position_ms : Int) (fps : ℚ) : Int :=
  pyRound ((position_ms : ℚ) * fps / 1000)

/-- Modelled from the spec: `frame_to_time(frame_index, fps) =
round(frame_index * 1000 / fps)`. -/
def frame_to_time (frame_index : Int) (fps : ℚ) : Int :=
  pyRound ((frame_index : ℚ) * 1000 / fps)

/-! ### Auxiliary definitions used by the proofs and example states -/

/-- Bound on the number of entries and list items of a markers mapping,
used as parser fuel accounting. -/
def entriesBound : List (String × List Int) → Nat
  | [] => 0
  | kv :: t => 1 + kv.2.length + entriesBound t

/-- A history entry used by the concrete example states. -/
def opW : HistOp := ⟨OpKind.add, ("1"), 120⟩

/-- Example state with pending (unsaved) marks and a loaded video. -/
def stC1 : PlayerState :=
  { log :=
      { markers := [(("1"), [120, 340]), (("2"), [200])],
        undo_stack := [opW],
        redo_stack := [] },
    save_status := false,
    fname := some ("clip.mp4") }

/-- Example state a load is applied to (nonempty log, no video). -/
def stR : PlayerState :=
  { log :=
      { markers := [(("9"), [7])],
        undo_stack := [],
        redo_stack := [] },
    save_status := true,
    fname := none }

/-- Example state holding one saved marker, used by the C2 counterexample. -/
def stC2 : PlayerState :=
  { log :=
      { markers := [(("1"), [3])],
        undo_stack := [],
        redo_stack := [] },
    save_status := true,
    fname := none }

/-- Example state whose video filename matches the task pattern. -/
def stC6 : PlayerState :=
  { log :=
      { markers := [(("1"), [2])],
        undo_stack := [opW],
        redo_stack := [] },
    save_status := false,
    fname := some ("20250102-Fusillo-BBT-x-12.mp4") }

/-! ### Properties of banker's rounding -/

/-- `pyRound` fixes integers. -/
theorem pyRound_intCast (n : ℤ) : pyRound (n : ℚ) = n := by
  unfold pyRound
  rw [Int.floor_intCast]
  norm_num

/-- `pyRound` is a nearest rounding: the error is at most one half. -/
theorem pyRound_abs_le (x : ℚ) : |(pyRound x : ℚ) - x| ≤ 1 / 2 := by
  have h1 : (⌊x⌋ : ℚ) ≤ x := Int.floor_le x
  have h2 : x < ⌊x⌋ + 1 := Int.lt_floor_add_one x
  unfold pyRound
  split_ifs with hA hB hC
  all_goals rw [abs_le]; push_cast; constructor
  all_goals linarith

/-- A point strictly closer than one half to an integer rounds to it. -/
theorem pyRound_eq_of_abs_lt (x : ℚ) (m : ℤ) (h : |x - (m : ℚ)| < 1 / 2) :
    pyRound x = m := by
  rw [abs_lt] at h
  obtain ⟨h1, h2⟩ := h
  rcases le_or_lt (m : ℚ) x with hge | hlt
  · have hfl : ⌊x⌋ = m := by
      rw [Int.floor_eq_iff]
      refine ⟨hge, ?_⟩
      linarith
    unfold pyRound
    rw [hfl, if_pos (by linarith)]
  · have hfl : ⌊x⌋ = m - 1 := by
      rw [Int.floor_eq_iff]
      push_cast
      constructor
      all_goals linarith
    unfold pyRound
    rw [hfl, if_neg (by push_cast; linarith), if_pos (by push_cast; linarith)]
    omega

/-! ### The canonical event file parses back to the mapping it printed -/

theorem digitsToNat_append (ds : List Char) (c : Char) :
    digitsToNat (ds ++ [c]) = 10 * digitsToNat ds + (c.toNat - 48) := by
  simp [digitsToNat, List.foldl_append]

theorem digitChar_toNat (d : Nat) (h : d < 10) : (digitChar d).toNat = 48 + d := by
  interval_cases d
  all_goals decide

theorem digitChar_isDigit (d : Nat) (h : d < 10) : (digitChar d).isDigit = true := by
  interval_cases d
  all_goals decide

theorem natDigitsAux_spec (fuel : Nat) :
    ∀ n, n < fuel →
      natDigitsAux fuel n ≠ [] ∧ (∀ c ∈ natDigitsAux fuel n, c.isDigit = true) ∧
        digitsToNat (natDigitsAux fuel n) = n := by
  induction fuel with
  | zero => intro n h; omega
  | succ fuel ih =>
    intro n h
    unfold natDigitsAux
    by_cases h10 : n < 10
    · rw [if_pos h10]
      refine ⟨by simp, ?_, ?_⟩
      · intro c hc
        simp only [List.mem_singleton] at hc
        subst hc
        exact digitChar_isDigit n h10
      · simp only [digitsToNat, List.foldl_cons, List.foldl_nil, digitChar_toNat n h10]
        omega
    · rw [if_neg h10]
      have hdiv : n / 10 < fuel := by
        have := Nat.div_lt_self (show 0 < n by omega) (show 1 < 10 by omega)
        omega
      obtain ⟨hne, hdig, hval⟩ := ih (n / 10) hdiv
      refine ⟨by simp, ?_, ?_⟩
      · intro c hc
        rw [List.mem_append] at hc
        rcases hc with hc | hc
        · exact hdig c hc
        · simp only [List.mem_singleton] at hc
          subst hc
          exact digitChar_isDigit _ (Nat.mod_lt n (by omega))
      · rw [digitsToNat_append, hval, digitChar_toNat _ (Nat.mod_lt n (by omega))]
        omega

theorem natDigits_ne_nil (n : Nat) : natDigits n ≠ [] :=
  (natDigitsAux_spec (n + 1) n (by omega)).1

theorem natDigits_isDigit (n : Nat) : ∀ c ∈ natDigits n, c.isDigit = true :=
  (natDigitsAux_spec (n + 1) n (by omega)).2.1

theorem digitsToNat_natDigits (n : Nat) : digitsToNat (natDigits n) = n :=
  (natDigitsAux_spec (n + 1) n (by omega)).2.2

theorem takeWhile_append_of_all (p : Char → Bool) (l1 l2 : List Char)
    (h : ∀ c ∈ l1, p c = true) :
    (l1 ++ l2).takeWhile p = l1 ++ l2.takeWhile p := by
  induction l1 with
  | nil => simp
  | cons a t ih =>
    have ha := h a (by simp)
    simp [List.takeWhile_cons, ha, ih (fun c hc => h c (by simp [hc]))]

theorem takeWhile_head_false (p : Char → Bool) (l : List Char)
    (h : ∀ c, l.head? = some c → p c = false) : l.takeWhile p = [] := by
  cases l with
  | nil => rfl
  | cons a t => simp [List.takeWhile_cons, h a rfl]

theorem parseUInt_print (n : Nat) (rest : List Char)
    (hrest : ∀ c, rest.head? = some c → c.isDigit = false) :
    parseUInt (natDigits n ++ rest) = some (n, rest) := by
  have ht : (natDigits n ++ rest).takeWhile (fun c => c.isDigit) = natDigits n := by
    rw [takeWhile_append_of_all _ _ _ (natDigits_isDigit n), takeWhile_head_false _ _ hrest,
      List.append_nil]
  have hne : (natDigits n).isEmpty = false := by
    cases hd : natDigits n with
    | nil => exact absurd hd (natDigits_ne_nil n)
    | cons a t => rfl
  unfold parseUInt
  simp only [ht, hne, Bool.false_eq_true, if_false, digitsToNat_natDigits, List.drop_left]

theorem parseInt_print (n : Int) (rest : List Char)
    (hrest : ∀ c, rest.head? = some c → c.isDigit = false) :
    parseInt (intToChars n ++ rest) = some (n, rest) := by
  by_cases hneg : n < 0
  · unfold intToChars
    rw [if_pos hneg]
    simp only [List.cons_append, List.nil_append, parseInt, if_pos rfl, if_true,
      parseUInt_print _ _ hrest, Option.map_some', Option.some.injEq, Prod.mk.injEq, and_true]
    omega
  · obtain ⟨c, t, hct⟩ : ∃ c t, natDigits n.natAbs = c :: t := by
      cases hd : natDigits n.natAbs with
      | nil => exact absurd hd (natDigits_ne_nil _)
      | cons a t => exact ⟨a, t, rfl⟩
    have hcdig : c.isDigit = true := by
      apply natDigits_isDigit n.natAbs
      rw [hct]
      simp
    have hcne : ¬ (c = Char.ofNat 45) := by
      intro hc
      rw [hc] at hcdig
      exact absurd hcdig (by decide)
    unfold intToChars
    rw [if_neg hneg, hct, List.cons_append]
    simp only [parseInt, if_neg hcne]
    rw [← List.cons_append, ← hct, parseUInt_print _ _ hrest]
    simp only [Option.map_some', Option.some.injEq, Prod.mk.injEq, and_true]
    omega

theorem skipSpaces_cons_space (l : List Char) :
    skipSpaces (Char.ofNat 32 :: l) = skipSpaces l := by
  simp [skipSpaces, List.dropWhile_cons]

theorem skipSpaces_no_space (l : List Char)
    (h : ∀ c, l.head? = some c → c ≠ Char.ofNat 32) : skipSpaces l = l := by
  cases l with
  | nil => rfl
  | cons a t => simp [skipSpaces, List.dropWhile_cons, h a rfl]

theorem intToChars_cons (n : Int) :
    ∃ c t, intToChars n = c :: t ∧ (c = Char.ofNat 45 ∨ c.isDigit = true) := by
  unfold intToChars
  by_cases hneg : n < 0
  · rw [if_pos hneg]
    exact ⟨_, _, rfl, Or.inl rfl⟩
  · rw [if_neg hneg]
    obtain ⟨c, t, hct⟩ : ∃ c t, natDigits n.natAbs = c :: t := by
      cases hd : natDigits n.natAbs with
      | nil => exact absurd hd (natDigits_ne_nil _)
      | cons a t => exact ⟨a, t, rfl⟩
    refine ⟨c, t, hct, Or.inr ?_⟩
    apply natDigits_isDigit n.natAbs
    rw [hct]
    simp

theorem numHead_facts (c : Char) (h : c = Char.ofNat 45 ∨ c.isDigit = true) :
    c ≠ Char.ofNat 32 ∧ c ≠ Char.ofNat 93 ∧ c ≠ rbraceChar ∧ c ≠ squote := by
  rcases h with h | h
  · subst h
    refine ⟨by decide, by decide, by decide, by decide⟩
  · refine ⟨?_, ?_, ?_, ?_⟩
    all_goals intro hc
    all_goals rw [hc] at h
    all_goals exact absurd h (by decide)

theorem intListItems_cons_shape (y : Int) (ys : List Int) :
    ∃ c t, intListItems (y :: ys) = c :: t ∧ (c = Char.ofNat 45 ∨ c.isDigit = true) := by
  obtain ⟨c, t, hct, hf⟩ := intToChars_cons y
  cases ys with
  | nil => exact ⟨c, t, by simp [intListItems, hct], hf⟩
  | cons z zs =>
    refine ⟨c, t ++ ([Char.ofNat 44, Char.ofNat 32] ++ intListItems (z :: zs)), ?_, hf⟩
    simp [intListItems, hct]

theorem parseIntListTail_print (xs : List Int) :
    ∀ (x : Int) (fuel : Nat) (rest : List Char), xs.length < fuel →
      parseIntListTail fuel (intListItems (x :: xs) ++ Char.ofNat 93 :: rest) =
        some (x :: xs, rest) := by
  induction xs with
  | nil =>
    intro x fuel rest hf
    cases fuel with
    | zero => omega
    | succ f =>
      have hr : ∀ c, (Char.ofNat 93 :: rest).head? = some c → c.isDigit = false := by
        intro c hc
        simp only [List.head?_cons, Option.some.injEq] at hc
        subst hc
        decide
      have hshape : intListItems [x] ++ Char.ofNat 93 :: rest =
          intToChars x ++ (Char.ofNat 93 :: rest) := by
        simp [intListItems]
      rw [hshape]
      simp only [parseIntListTail]
      rw [parseInt_print x _ hr]
      simp
  | cons y ys ih =>
    intro x fuel rest hf
    cases fuel with
    | zero => simp at hf
    | succ f =>
      have hshape : intListItems (x :: y :: ys) ++ Char.ofNat 93 :: rest =
          intToChars x ++ (Char.ofNat 44 :: Char.ofNat 32 ::
            (intListItems (y :: ys) ++ Char.ofNat 93 :: rest)) := by
        simp [intListItems]
      have hr : ∀ c, (Char.ofNat 44 :: Char.ofNat 32 ::
          (intListItems (y :: ys) ++ Char.ofNat 93 :: rest)).head? = some c →
            c.isDigit = false := by
        intro c hc
        simp only [List.head?_cons, Option.some.injEq] at hc
        subst hc
        decide
      have hskip : skipSpaces (Char.ofNat 32 ::
          (intListItems (y :: ys) ++ Char.ofNat 93 :: rest)) =
            intListItems (y :: ys) ++ Char.ofNat 93 :: rest := by
        rw [skipSpaces_cons_space]
        obtain ⟨c0, t0, hct, hfact⟩ := intListItems_cons_shape y ys
        rw [hct, List.cons_append]
        refine skipSpaces_no_space _ ?_
        intro c hc
        simp only [List.head?_cons, Option.some.injEq] at hc
        subst hc
        exact (numHead_facts _ hfact).1
      have hys : ys.length < f := by
        simp only [List.length_cons] at hf
        omega
      rw [hshape]
      simp only [parseIntListTail]
      rw [parseInt_print x _ hr]
      simp only [if_neg (show ¬ (Char.ofNat 44 = Char.ofNat 93) by decide), if_pos rfl,
        if_true, hskip, ih y f rest hys]

theorem stringMk_data (s : String) : String.mk s.data = s := by
  cases s
  rfl

theorem parseIntList_print (xs : List Int) (fuel : Nat) (rest : List Char)
    (hf : xs.length ≤ fuel) :
    parseIntList fuel (intListChars xs ++ rest) = some (xs, rest) := by
  cases xs with
  | nil =>
    have hshape : intListChars ([] : List Int) ++ rest =
        Char.ofNat 91 :: (Char.ofNat 93 :: rest) := by
      simp [intListChars, intListItems]
    rw [hshape]
    simp only [parseIntList, if_pos rfl, if_true]
    rw [skipSpaces_no_space _ (fun c hc => by
      simp only [List.head?_cons, Option.some.injEq] at hc
      subst hc
      decide)]
    simp
  | cons x xs2 =>
    obtain ⟨c0, t0, hct, hfact⟩ := intListItems_cons_shape x xs2
    have htail := parseIntListTail_print xs2 x fuel rest (by
      simp only [List.length_cons] at hf
      omega)
    have hshape : intListChars (x :: xs2) ++ rest =
        Char.ofNat 91 :: (intListItems (x :: xs2) ++ Char.ofNat 93 :: rest) := by
      simp [intListChars]
    rw [hshape]
    simp only [parseIntList, if_pos rfl, if_true]
    rw [hct, List.cons_append] at htail ⊢
    rw [skipSpaces_no_space _ (fun c hc => by
      simp only [List.head?_cons, Option.some.injEq] at hc
      subst hc
      exact (numHead_facts _ hfact).1)]
    simp only [if_neg (numHead_facts _ hfact).2.1, htail]

theorem parseStrLit_print (k : String) (rest : List Char)
    (hq : ∀ c ∈ k.data, c ≠ squote) :
    parseStrLit (strKeyChars k ++ rest) = some (k, rest) := by
  have hshape : strKeyChars k ++ rest = squote :: (k.data ++ (squote :: rest)) := by
    simp [strKeyChars]
  rw [hshape]
  simp only [parseStrLit, if_pos rfl, if_true]
  have htw : (k.data ++ (squote :: rest)).takeWhile (fun d => d != squote) = k.data := by
    rw [takeWhile_append_of_all _ _ _ (fun c hc => by
        simp only [bne_iff_ne, ne_eq]
        exact hq c hc),
      takeWhile_head_false _ _ (fun c hc => by
        simp only [List.head?_cons, Option.some.injEq] at hc
        subst hc
        simp), List.append_nil]
  simp only [htw, List.drop_left, if_pos rfl, if_true, stringMk_data]

theorem parseEntry_print (kv : String × List Int) (fuel : Nat) (rest : List Char)
    (hq : ∀ c ∈ kv.1.data, c ≠ squote) (hlen : kv.2.length ≤ fuel) :
    parseEntry fuel (entryChars kv ++ rest) = some (kv, rest) := by
  have hshape : entryChars kv ++ rest =
      strKeyChars kv.1 ++ (Char.ofNat 58 :: Char.ofNat 32 :: (intListChars kv.2 ++ rest)) := by
    simp [entryChars]
  have hskip1 : skipSpaces (Char.ofNat 58 :: Char.ofNat 32 :: (intListChars kv.2 ++ rest)) =
      Char.ofNat 58 :: Char.ofNat 32 :: (intListChars kv.2 ++ rest) := by
    refine skipSpaces_no_space _ ?_
    intro c hc
    simp only [List.head?_cons, Option.some.injEq] at hc
    subst hc
    decide
  have hskip2 : skipSpaces (Char.ofNat 32 :: (intListChars kv.2 ++ rest)) =
      intListChars kv.2 ++ rest := by
    rw [skipSpaces_cons_space]
    rw [show intListChars kv.2 ++ rest =
        Char.ofNat 91 :: (intListItems kv.2 ++ Char.ofNat 93 :: rest) from by
      simp [intListChars]]
    refine skipSpaces_no_space _ ?_
    intro c hc
    simp only [List.head?_cons, Option.some.injEq] at hc
    subst hc
    decide
  rw [hshape]
  simp only [parseEntry]
  rw [parseStrLit_print kv.1 _ hq]
  simp only [hskip1, if_pos rfl, if_true, hskip2, parseIntList_print kv.2 fuel rest hlen]

theorem entriesChars_cons_shape (kv : String × List Int) (t : List (String × List Int)) :
    ∃ l, entriesChars (kv :: t) = squote :: l := by
  cases t with
  | nil =>
    refine ⟨kv.1.data ++ squote :: Char.ofNat 58 :: Char.ofNat 32 :: intListChars kv.2, ?_⟩
    simp [entriesChars, entryChars, strKeyChars]
  | cons kv2 t2 =>
    refine ⟨kv.1.data ++ squote :: Char.ofNat 58 :: Char.ofNat 32 ::
      (intListChars kv.2 ++ Char.ofNat 44 :: Char.ofNat 32 :: entriesChars (kv2 :: t2)), ?_⟩
    simp [entriesChars, entryChars, strKeyChars]

theorem parseDictTail_print (t : List (String × List Int)) :
    ∀ (kv : String × List Int) (fuel : Nat) (rest : List Char),
      entriesBound (kv :: t) ≤ fuel →
      (∀ e ∈ kv :: t, ∀ c ∈ e.1.data, c ≠ squote) →
      parseDictTail fuel (entriesChars (kv :: t) ++ rbraceChar :: rest) =
        some (kv :: t, rest) := by
  induction t with
  | nil =>
    intro kv fuel rest hb hq
    cases fuel with
    | zero => simp [entriesBound] at hb
    | succ f =>
      have hshape : entriesChars [kv] ++ rbraceChar :: rest =
          entryChars kv ++ (rbraceChar :: rest) := by
        simp [entriesChars]
      rw [hshape]
      simp only [parseDictTail]
      rw [parseEntry_print kv f _ (hq kv (by simp)) (by
        simp only [entriesBound] at hb
        omega)]
      simp
  | cons kv2 t2 ih =>
    intro kv fuel rest hb hq
    cases fuel with
    | zero => simp [entriesBound] at hb
    | succ f =>
      have hshape : entriesChars (kv :: kv2 :: t2) ++ rbraceChar :: rest =
          entryChars kv ++ (Char.ofNat 44 :: Char.ofNat 32 ::
            (entriesChars (kv2 :: t2) ++ rbraceChar :: rest)) := by
        simp [entriesChars]
      rw [hshape]
      simp only [parseDictTail]
      rw [parseEntry_print kv f _ (hq kv (by simp)) (by
        simp only [entriesBound] at hb
        omega)]
      have hskip : skipSpaces (Char.ofNat 32 ::
          (entriesChars (kv2 :: t2) ++ rbraceChar :: rest)) =
            entriesChars (kv2 :: t2) ++ rbraceChar :: rest := by
        rw [skipSpaces_cons_space]
        obtain ⟨l, hl⟩ := entriesChars_cons_shape kv2 t2
        rw [hl, List.cons_append]
        refine skipSpaces_no_space _ ?_
        intro c hc
        simp only [List.head?_cons, Option.some.injEq] at hc
        subst hc
        decide
      have hrec := ih kv2 f rest (by
          simp only [entriesBound] at hb ⊢
          omega)
        (fun e he => hq e (List.mem_cons_of_mem kv he))
      simp only [if_neg (show ¬ (Char.ofNat 44 = rbraceChar) by decide), if_pos rfl, if_true,
        hskip, hrec]

theorem parseDict_print (m : List (String × List Int)) (fuel : Nat) (rest : List Char)
    (hb : entriesBound m ≤ fuel)
    (hq : ∀ e ∈ m, ∀ c ∈ e.1.data, c ≠ squote) :
    parseDict fuel (markersChars m ++ rest) = some (m, rest) := by
  cases m with
  | nil =>
    have hshape : markersChars [] ++ rest = lbraceChar :: (rbraceChar :: rest) := by
      simp [markersChars, entriesChars]
    rw [hshape]
    simp only [parseDict, if_pos rfl, if_true]
    rw [skipSpaces_no_space _ (fun c hc => by
      simp only [List.head?_cons, Option.some.injEq] at hc
      subst hc
      decide)]
    simp
  | cons kv t =>
    obtain ⟨l, hl⟩ := entriesChars_cons_shape kv t
    have htail := parseDictTail_print t kv fuel rest hb hq
    have hshape : markersChars (kv :: t) ++ rest =
        lbraceChar :: (entriesChars (kv :: t) ++ rbraceChar :: rest) := by
      simp [markersChars]
    rw [hshape]
    simp only [parseDict, if_pos rfl, if_true]
    rw [hl, List.cons_append] at htail ⊢
    rw [skipSpaces_no_space _ (fun c hc => by
      simp only [List.head?_cons, Option.some.injEq] at hc
      subst hc
      decide)]
    simp only [if_neg (show ¬ (squote = rbraceChar) by decide), htail]

theorem intToChars_length_pos (n : Int) : 1 ≤ (intToChars n).length := by
  have hne := natDigits_ne_nil n.natAbs
  obtain ⟨a, t, hat⟩ : ∃ a t, natDigits n.natAbs = a :: t := by
    cases hd : natDigits n.natAbs with
    | nil => exact absurd hd hne
    | cons a t => exact ⟨a, t, rfl⟩
  unfold intToChars
  split_ifs
  · simp
  · simp [hat]

theorem intListItems_length (xs : List Int) : xs.length ≤ (intListItems xs).length := by
  induction xs with
  | nil => simp [intListItems]
  | cons x xs2 ih =>
    cases xs2 with
    | nil => simpa [intListItems] using intToChars_length_pos x
    | cons y ys =>
      have h1 := intToChars_length_pos x
      simp only [intListItems, List.length_append, List.length_cons] at ih ⊢
      omega

theorem entriesBound_le (m : List (String × List Int)) :
    entriesBound m ≤ (entriesChars m).length := by
  induction m with
  | nil => simp [entriesBound, entriesChars]
  | cons kv t ih =>
    have hitems := intListItems_length kv.2
    cases t with
    | nil =>
      simp only [entriesBound, entriesChars, entryChars, strKeyChars, intListChars,
        List.length_append, List.length_cons, List.length_nil, List.length_singleton]
      omega
    | cons kv2 t2 =>
      simp only [entriesBound, entriesChars, entryChars, strKeyChars, intListChars,
        List.length_append, List.length_cons, List.length_nil, List.length_singleton] at ih ⊢
      omega

theorem literalEval_print (m : List (String × List Int))
    (hq : ∀ e ∈ m, ∀ c ∈ e.1.data, c ≠ squote) :
    literalEval (pyStrMarkers m) = some (PyLit.dict m) := by
  have hshape : markersChars m = lbraceChar :: (entriesChars m ++ [rbraceChar]) := by
    simp [markersChars]
  have hskip : skipSpaces (markersChars m) = markersChars m := by
    rw [hshape]
    refine skipSpaces_no_space _ ?_
    intro c hc
    simp only [List.head?_cons, Option.some.injEq] at hc
    subst hc
    decide
  have hb : entriesBound m ≤ (markersChars m).length + 1 := by
    have h1 := entriesBound_le m
    rw [hshape]
    simp only [List.length_cons, List.length_append, List.length_singleton]
    omega
  have hpd := parseDict_print m ((markersChars m).length + 1) [] hb hq
  rw [List.append_nil] at hpd
  unfold literalEval pyStrMarkers
  rw [show (String.mk (markersChars m)).data = markersChars m from rfl]
  rw [hskip]
  rw [hshape] at hpd ⊢
  simp only [hpd, if_pos rfl, if_true]
  simp [skipSpaces]

/-! ### Supporting lemmas about sorting, keys and the save branches -/

theorem pySortInts_sorted (xs : List Int) :
    List.Sorted (fun a b : Int => a ≤ b) (pySortInts xs) :=
  List.sorted_insertionSort _ _

theorem pySortInts_of_sorted (xs : List Int)
    (h : List.Sorted (fun a b : Int => a ≤ b) xs) : pySortInts xs = xs :=
  List.Sorted.insertionSort_eq h

theorem simpleKey_no_quote (k : String) (h : simpleKey k = true) :
    ∀ c ∈ k.data, c ≠ squote := by
  intro c hc
  unfold simpleKey at h
  rw [List.all_eq_true] at h
  have h2 := h c hc
  simp only [Bool.and_eq_true, bne_iff_ne, ne_eq, decide_eq_true_eq] at h2
  exact h2.1.1.1

theorem map_pySort_sorted (m : List (String × List Int))
    (hs : ∀ kv ∈ m, List.Sorted (fun a b : Int => a ≤ b) kv.2) :
    m.map (fun kv => (kv.1, pySortInts kv.2)) = m := by
  induction m with
  | nil => rfl
  | cons kv t ih =>
    simp only [List.map_cons]
    rw [pySortInts_of_sorted kv.2 (hs kv (by simp)),
      ih (fun e he => hs e (List.mem_cons_of_mem kv he))]

theorem save_event_shape (st : PlayerState) (ex : Option (Option String)) (w : Bool) :
    (save_event st ex w = (st, SaveOutcome.nothingToSave)) ∨
    (save_event st ex w = (st, SaveOutcome.noVideo)) ∨
    (save_event st ex w = (st, SaveOutcome.nothingNew)) ∨
    (∃ f, st.fname = some f ∧ save_event st ex w =
      ({ st with
          save_status := true,
          log := { st.log with undo_stack := [], redo_stack := [] } },
        SaveOutcome.unchanged (saveEventFileName f))) ∨
    (∃ f, st.fname = some f ∧ save_event st ex w =
      ({ st with
          save_status := true,
          log := { st.log with undo_stack := [], redo_stack := [] } },
        SaveOutcome.saved (saveEventFileName f) (pyStrMarkers st.log.markers))) ∨
    (save_event st ex w = (st, SaveOutcome.ioError)) := by
  unfold save_event
  by_cases h1 : anyMarkers st.log.markers = false
  · refine Or.inl ?_
    rw [if_pos h1]
  rw [if_neg h1]
  cases hfn : st.fname with
  | none => exact Or.inr (Or.inl rfl)
  | some f =>
    by_cases h2 : st.save_status = true ∧
        st.log.undo_stack.length + st.log.redo_stack.length = 0
    · refine Or.inr (Or.inr (Or.inl ?_))
      simp only [if_pos h2]
    by_cases h3 : saveIdentical ex st.log.markers = true
    · refine Or.inr (Or.inr (Or.inr (Or.inl ⟨f, rfl, ?_⟩)))
      simp only [if_neg h2, if_pos h3]
    by_cases h4 : w = true
    · refine Or.inr (Or.inr (Or.inr (Or.inr (Or.inl ⟨f, rfl, ?_⟩))))
      simp only [if_neg h2, if_neg h3, if_pos h4]
    · refine Or.inr (Or.inr (Or.inr (Or.inr (Or.inr ?_))))
      simp only [if_neg h2, if_neg h3, if_neg h4]

/-! ### Claim theorems -/

/-- C5: for every key-press event, while the frame-editing flag is set
the key handler is never invoked: `eventFilter` dispatches a key press
to `handle_key_press` exactly when the event is a key press and
`frame_editing` is false (gui.py lines 291-295). -/
theorem keypress_gated_by_frame_editing (fe : Bool) (ev : QEventKind) :
    (eventFilter fe ev).1 = true ↔ (ev = QEventKind.keyPress ∧ fe = false) := by
  unfold eventFilter
  by_cases hc : ev = QEventKind.keyPress ∧ fe = false
  · rw [if_pos hc]
    simp [hc.1, hc.2]
  · rw [if_neg hc]
    simp [hc]

/-- C10: for every text in the frame-number input, after
`jump_to_frame_from_input` returns, the editing mode is exited: the flag
is cleared, the input box hidden and the frame label visible again, even
on the `ValueError` path (the `finally` block of gui.py lines 510-514). -/
theorem frame_input_always_exits_editing (ui : FrameEditUi) (text : String) :
    (jump_to_frame_from_input ui text).1.frame_editing = false ∧
    (jump_to_frame_from_input ui text).1.input_visible = false ∧
    (jump_to_frame_from_input ui text).1.label_visible = true :=
  ⟨rfl, rfl, rfl⟩

/-- C8: the polling timer runs exactly while the transport is Playing:
`on_playback_state_changed` starts the frame timer with interval
`int(1000 / PLAYBACK_FPS)` on entering Playing and stops it on every
other state; at the default playback rate 30 the interval is 33 ms. -/
theorem timer_runs_only_while_playing (cfg : Config) (s : PlaybackState) :
    ((on_playback_state_changed cfg s).2 =
      if s = PlaybackState.playing then
        TimerCmd.start (pyTrunc (1000 / cfg.PLAYBACK_FPS))
      else TimerCmd.stop) ∧
    pyTrunc (1000 / defaultConfig.PLAYBACK_FPS) = 33 := by
  constructor
  · unfold on_playback_state_changed
    by_cases hs : s = PlaybackState.playing
    · rw [if_pos hs, if_pos hs]
    · rw [if_neg hs, if_neg hs]
  · unfold pyTrunc
    rw [if_pos (by norm_num [defaultConfig])]
    rw [show (1000 : ℚ) / defaultConfig.PLAYBACK_FPS = 100 / 3 from by
      norm_num [defaultConfig]]
    rw [Int.floor_eq_iff]
    norm_num

/-- C3: releasing the slider clears the pressed flag and computes the
jump target as `round(slider_value * VIDEO_FPS_ORIGINAL / 1000)` from
the original source rate; at the default rates the original-rate target
differs from what the playback rate would give (gui.py lines 317-320). -/
theorem slider_release_uses_original_fps (cfg : Config) (ui : SliderUi) :
    (slider_released cfg ui =
      (⟨false, ui.slider_value⟩,
        pyRound ((ui.slider_value : ℚ) * cfg.VIDEO_FPS_ORIGINAL / 1000))) ∧
    pyRound ((1000 : ℚ) * defaultConfig.VIDEO_FPS_ORIGINAL / 1000) ≠
      pyRound ((1000 : ℚ) * defaultConfig.PLAYBACK_FPS / 1000) := by
  refine ⟨rfl, ?_⟩
  have h1 : pyRound ((1000 : ℚ) * defaultConfig.VIDEO_FPS_ORIGINAL / 1000) = 120 := by
    rw [show (1000 : ℚ) * defaultConfig.VIDEO_FPS_ORIGINAL / 1000 = 11988 / 100 from by
      norm_num [defaultConfig]]
    apply pyRound_eq_of_abs_lt
    rw [abs_lt]
    constructor
    all_goals push_cast
    all_goals norm_num
  have h2 : pyRound ((1000 : ℚ) * defaultConfig.PLAYBACK_FPS / 1000) = 30 := by
    rw [show (1000 : ℚ) * defaultConfig.PLAYBACK_FPS / 1000 = ((30 : ℤ) : ℚ) from by
      norm_num [defaultConfig]]
    exact pyRound_intCast 30
  rw [h1, h2]
  decide

/-- C4 counterexample: the round-trip fails at fps = 2000 and f = 1:
`frame_to_time 1 2000 = round(1/2) = 0` (banker's rounding), and
`time_to_frame 0 2000 = 0`, not 1 — although `2000 > 0` and `1 ≥ 0`. -/
theorem frame_roundtrip_cex :
    (0 : ℚ) < 2000 ∧ (0 : Int) ≤ 1 ∧
    time_to_frame (frame_to_time 1 2000) 2000 = 0 ∧ (0 : Int) ≠ 1 := by
  refine ⟨by norm_num, by decide, ?_, by decide⟩
  have hfl : ⌊(1 : ℚ) / 2⌋ = 0 := by
    rw [Int.floor_eq_iff]
    norm_num
  have hft : frame_to_time 1 2000 = 0 := by
    unfold frame_to_time
    rw [show ((1 : Int) : ℚ) * 1000 / 2000 = 1 / 2 from by norm_num]
    unfold pyRound
    rw [hfl]
    norm_num
  rw [hft]
  unfold time_to_frame
  rw [show ((0 : Int) : ℚ) * 2000 / 1000 = ((0 : ℤ) : ℚ) from by norm_num]
  exact pyRound_intCast 0

/-- C4 amended: for frame rates bounded by the millisecond resolution,
`0 < fps ≤ 1000`, and every frame index `f ≥ 0` (any integer works),
`time_to_frame (frame_to_time f fps) fps = f` exactly.  Above 1000 fps
the claim fails (see the counterexample at fps = 2000). -/
theorem frame_roundtrip_bounded (fps : ℚ) (f : Int) (h0 : 0 < fps) (h1 : fps ≤ 1000)
    (_hf : 0 ≤ f) :
    time_to_frame (frame_to_time f fps) fps = f := by
  unfold time_to_frame frame_to_time
  rcases eq_or_lt_of_le h1 with heq | hlt
  · subst heq
    have harg : (f : ℚ) * 1000 / 1000 = ((f : ℤ) : ℚ) := by
      field_simp
    rw [harg, pyRound_intCast, harg, pyRound_intCast]
  · have hb := pyRound_abs_le ((f : ℚ) * 1000 / fps)
    apply pyRound_eq_of_abs_lt
    have hfps : fps ≠ 0 := ne_of_gt h0
    have key : ((pyRound ((f : ℚ) * 1000 / fps) : ℚ)) * fps / 1000 - (f : ℚ) =
        ((pyRound ((f : ℚ) * 1000 / fps) : ℚ) - (f : ℚ) * 1000 / fps) * (fps / 1000) := by
      field_simp
      ring
    rw [key, abs_mul, abs_of_pos (show (0 : ℚ) < fps / 1000 by positivity)]
    have hlt2 : fps / 1000 < 1 := by
      rw [div_lt_one (show (0 : ℚ) < 1000 by norm_num)]
      exact hlt
    calc |(pyRound ((f : ℚ) * 1000 / fps) : ℚ) - (f : ℚ) * 1000 / fps| * (fps / 1000) ≤
          (1 / 2) * (fps / 1000) := by
          apply mul_le_mul_of_nonneg_right hb (le_of_lt (by positivity))
      _ < 1 / 2 := by nlinarith

/-- C4 amended witness: at fps = 30 and f = 7 the round-trip is exact. -/
theorem frame_roundtrip_bounded_witness :
    time_to_frame (frame_to_time 7 30) 30 = 7 :=
  frame_roundtrip_bounded 30 7 (by norm_num) (by norm_num) (by decide)

/-- C2 amended: an I/O error (open/read failure) or a literal-parse
error during `_read_event_file` leaves the whole player state unchanged,
and an I/O error during `save_event` does too; but a file that parses to
a literal other than a mapping makes `_read_event_file` clear the log
(markers and both history stacks emptied) before the error is reported,
because `clear()` runs between `literal_eval` and `.items()`. -/
theorem read_save_error_state (st : PlayerState) (file : Option String)
    (ex : Option (Option String)) (w : Bool) :
    ((readEventFile st file).2 = ReadOutcome.ioError ∨
        (readEventFile st file).2 = ReadOutcome.parseError →
      (readEventFile st file).1 = st) ∧
    ((readEventFile st file).2 = ReadOutcome.typeError →
      (readEventFile st file).1.log = EventLog.clear st.log ∧
      (readEventFile st file).1.save_status = st.save_status ∧
      (readEventFile st file).1.fname = st.fname) ∧
    ((save_event st ex w).2 = SaveOutcome.ioError → (save_event st ex w).1 = st) := by
  refine ⟨?_, ?_, ?_⟩
  · intro h
    cases file with
    | none => rfl
    | some content =>
      cases hle : literalEval content with
      | none => simp [readEventFile, hle]
      | some p =>
        cases p with
        | dict d => simp [readEventFile, hle] at h
        | int n => simp [readEventFile, hle] at h
        | str s2 => simp [readEventFile, hle] at h
        | list xs => simp [readEventFile, hle] at h
  · intro h
    cases file with
    | none => simp [readEventFile] at h
    | some content =>
      cases hle : literalEval content with
      | none => simp [readEventFile, hle] at h
      | some p =>
        cases p with
        | dict d => simp [readEventFile, hle] at h
        | int n => simp [readEventFile, hle]
        | str s2 => simp [readEventFile, hle]
        | list xs => simp [readEventFile, hle]
  · intro h
    rcases save_event_shape st ex w with he | he | he | ⟨f, hfn, he⟩ | ⟨f, hfn, he⟩ | he
    all_goals rw [he] at h ⊢
    all_goals first
      | rfl
      | simp at h

/-- C2 counterexample: the file content `[1, 2]` is a valid Python
literal, so `literal_eval` succeeds and `clear()` runs; the subsequent
`.items()` call raises and `_read_event_file` ends in its error handler
— yet the in-memory log is not what it was before the call: the
previously held markers are gone. -/
theorem read_error_clears_log_cex :
    (readEventFile stC2 (some ("[1, 2]"))).2 = ReadOutcome.typeError ∧
    (readEventFile stC2 (some ("[1, 2]"))).2 ≠ ReadOutcome.ok ∧
    (readEventFile stC2 (some ("[1, 2]"))).1.log ≠ stC2.log ∧
    (readEventFile stC2 (some ("[1, 2]"))).1.log.markers = [] := by decide

/-- C2 amended witness: a parse failure (content `oops`) leaves the
state unchanged, and a failing write leaves the state unchanged. -/
theorem read_save_error_state_witness :
    (readEventFile stC1 (some ("oops"))).1 = stC1 ∧
    (save_event stC1 none false).1 = stC1 := by
  have h := read_save_error_state stC1 (some ("oops")) none false
  exact ⟨h.1 (Or.inr (by decide)), h.2.2 (by decide)⟩

/-- C9 counterexample: with every marker list empty but a nonempty undo
stack, `save_event` completes without raising (it prints "Nothing to
save." and returns), yet the undo stack is left nonempty, not cleared. -/
theorem save_guard_keeps_stacks_cex :
    (save_event
      { log :=
          { markers := [(("1"), [])],
            undo_stack := [opW],
            redo_stack := [] },
        save_status := false,
        fname := some ("clip.mp4") } none true).2 = SaveOutcome.nothingToSave ∧
    (save_event
      { log :=
          { markers := [(("1"), [])],
            undo_stack := [opW],
            redo_stack := [] },
        save_status := false,
        fname := some ("clip.mp4") } none true).1.log.undo_stack ≠ [] := by decide

/-- C9 amended: whenever `save_event` actually saves — it writes the
file, or it finds the existing file content identical and skips the
write — both history stacks are left empty, the markers mapping is
unchanged, the video path is unchanged and the dirty flag is set; on the
early-return paths (nothing to save, no video, nothing new) and on a
failed write, the whole state is left exactly as it was. -/
theorem save_success_state (st : PlayerState) (ex : Option (Option String)) (w : Bool)
    (h : (∃ n, (save_event st ex w).2 = SaveOutcome.unchanged n) ∨
         (∃ n c, (save_event st ex w).2 = SaveOutcome.saved n c)) :
    (save_event st ex w).1.log.undo_stack = [] ∧
    (save_event st ex w).1.log.redo_stack = [] ∧
    (save_event st ex w).1.log.markers = st.log.markers ∧
    (save_event st ex w).1.fname = st.fname ∧
    (save_event st ex w).1.save_status = true := by
  rcases save_event_shape st ex w with he | he | he | ⟨f, hfn, he⟩ | ⟨f, hfn, he⟩ | he
  all_goals rw [he] at h ⊢
  all_goals first
    | exact ⟨rfl, rfl, rfl, rfl, rfl⟩
    | (rcases h with ⟨n, h⟩ | ⟨n, c, h⟩
       all_goals simp at h)

/-- C9 amended witness: a successful write at `stC1` leaves both stacks
empty, the markers intact, the path intact and the dirty flag set. -/
theorem save_success_state_witness :
    (save_event stC1 none true).1.log.undo_stack = [] ∧
    (save_event stC1 none true).1.log.redo_stack = [] ∧
    (save_event stC1 none true).1.log.markers = stC1.log.markers ∧
    (save_event stC1 none true).1.fname = stC1.fname ∧
    (save_event stC1 none true).1.save_status = true :=
  save_success_state stC1 none true
    (Or.inr ⟨("event-clip.txt"), ("\x7b'1': [120, 340], '2': [200]\x7d"), by decide⟩)

/-- C6: whenever `save_event` writes, the event-file name is
`event-<derived-id>.txt`, where the derived id is the substring of the
video filename matched by the task-naming pattern, or the video
basename without its extension when the pattern does not match
(gui.py lines 406-417). -/
theorem save_event_filename (st : PlayerState) (ex : Option (Option String)) (w : Bool)
    (f name content : String)
    (hf : st.fname = some f)
    (hsave : (save_event st ex w).2 = SaveOutcome.saved name content) :
    (∀ g, taskSearch f = some g → name = ("event-") ++ g ++ (".txt")) ∧
    (taskSearch f = none →
      name = ("event-") ++ String.mk (splitextRoot (basenameChars f.data)) ++ (".txt")) := by
  have hname : name = saveEventFileName f := by
    rcases save_event_shape st ex w with he | he | he | ⟨f2, hfn, he⟩ | ⟨f2, hfn, he⟩ | he
    · rw [he] at hsave
      simp at hsave
    · rw [he] at hsave
      simp at hsave
    · rw [he] at hsave
      simp at hsave
    · rw [he] at hsave
      simp at hsave
    · rw [he] at hsave
      simp at hsave
      rw [hf] at hfn
      injection hfn with hff
      rw [← hsave.1, hff]
    · rw [he] at hsave
      simp at hsave
  constructor
  · intro g hg
    rw [hname]
    unfold saveEventFileName derivedFnm
    rw [hg]
  · intro hg
    rw [hname]
    unfold saveEventFileName derivedFnm
    rw [hg]

/-- C6 witness: a filename matching the task pattern yields the matched
substring as derived id; the save at `stC6` writes exactly that file. -/
theorem save_event_filename_witness :
    ("event-20250102-Fusillo-BBT-x-12.txt" : String) =
      ("event-") ++ ("20250102-Fusillo-BBT-x-12") ++ (".txt") := by
  have h := save_event_filename stC6 none true ("20250102-Fusillo-BBT-x-12.mp4")
    ("event-20250102-Fusillo-BBT-x-12.txt") (pyStrMarkers stC6.log.markers) rfl (by decide)
  exact h.1 ("20250102-Fusillo-BBT-x-12") (by decide)

/-- C7: for a file whose content parses as a mapping, `_read_event_file`
replaces the markers wholesale — the new mapping is exactly the parsed
entries with each sequence sorted ascending — after clearing the log and
history; nothing of the previous markers survives. -/
theorem load_replaces_markers_sorted (st : PlayerState) (s : String)
    (d : List (String × List Int)) (h : literalEval s = some (PyLit.dict d)) :
    (readEventFile st (some s)).2 = ReadOutcome.ok ∧
    (readEventFile st (some s)).1.log.markers =
      d.map (fun kv => (kv.1, pySortInts kv.2)) ∧
    (readEventFile st (some s)).1.log.undo_stack = [] ∧
    (readEventFile st (some s)).1.log.redo_stack = [] ∧
    (readEventFile st (some s)).1.save_status = true ∧
    ∀ kv ∈ (readEventFile st (some s)).1.log.markers,
      List.Sorted (fun a b : Int => a ≤ b) kv.2 := by
  have hre : readEventFile st (some s) =
      ({ st with
          log := { markers := d.map (fun kv => (kv.1, pySortInts kv.2)),
                   undo_stack := [], redo_stack := [] },
          save_status := true }, ReadOutcome.ok) := by
    simp [readEventFile, h]
  rw [hre]
  refine ⟨rfl, rfl, rfl, rfl, rfl, ?_⟩
  intro kv hkv
  simp only [List.mem_map] at hkv
  obtain ⟨e, he, heq⟩ := hkv
  subst heq
  exact pySortInts_sorted e.2

/-- C7 witness: loading a file holding an unsorted list replaces the
markers of `stR` with the parsed mapping, sorted, and empty history. -/
theorem load_replaces_markers_sorted_witness :
    (readEventFile stR (some ("\x7b'a': [3, 1]\x7d"))).2 = ReadOutcome.ok ∧
    (readEventFile stR (some ("\x7b'a': [3, 1]\x7d"))).1.log.markers = [(("a"), [1, 3])] ∧
    (readEventFile stR (some ("\x7b'a': [3, 1]\x7d"))).1.log.undo_stack = [] := by
  have h := load_replaces_markers_sorted stR ("\x7b'a': [3, 1]\x7d") [(("a"), [3, 1])]
    (by decide)
  refine ⟨h.1, ?_, h.2.2.1⟩
  rw [h.2.1]
  decide

/-- C1: the persisted event-file format round-trips: when `save_event`
writes `str(dict(markers))` for a well-formed log (printable keys,
sorted frame lists), reading the written content back yields the
identical markers mapping, and writing the read-back mapping reproduces
the file content byte for byte. -/
theorem save_then_load_roundtrip (st st2 : PlayerState) (ex : Option (Option String))
    (w : Bool) (name content : String)
    (hsave : (save_event st ex w).2 = SaveOutcome.saved name content)
    (hkeys : ∀ kv ∈ st.log.markers, simpleKey kv.1 = true)
    (hsorted : ∀ kv ∈ st.log.markers, List.Sorted (fun a b : Int => a ≤ b) kv.2) :
    (readEventFile st2 (some content)).2 = ReadOutcome.ok ∧
    (readEventFile st2 (some content)).1.log.markers = st.log.markers ∧
    pyStrMarkers ((readEventFile st2 (some content)).1.log.markers) = content := by
  have hcontent : content = pyStrMarkers st.log.markers := by
    rcases save_event_shape st ex w with he | he | he | ⟨f2, hfn, he⟩ | ⟨f2, hfn, he⟩ | he
    · rw [he] at hsave
      simp at hsave
    · rw [he] at hsave
      simp at hsave
    · rw [he] at hsave
      simp at hsave
    · rw [he] at hsave
      simp at hsave
    · rw [he] at hsave
      simp at hsave
      exact hsave.2.symm
    · rw [he] at hsave
      simp at hsave
  subst hcontent
  have hq : ∀ e ∈ st.log.markers, ∀ c ∈ e.1.data, c ≠ squote :=
    fun e he => simpleKey_no_quote e.1 (hkeys e he)
  have hle := literalEval_print st.log.markers hq
  have hmap := map_pySort_sorted st.log.markers hsorted
  have hre : readEventFile st2 (some (pyStrMarkers st.log.markers)) =
      ({ st2 with
          log := { markers := st.log.markers.map (fun kv => (kv.1, pySortInts kv.2)),
                   undo_stack := [], redo_stack := [] },
          save_status := true }, ReadOutcome.ok) := by
    simp [readEventFile, hle]
  have h2 : (readEventFile st2 (some (pyStrMarkers st.log.markers))).1.log.markers =
      st.log.markers := by
    rw [hre]
    exact hmap
  exact ⟨by rw [hre], h2, by rw [h2]⟩

/-- C1 witness: saving the two-key log of `stC1` writes the canonical
content, and loading that content into `stR` reproduces the mapping and
re-serializes byte-identically. -/
theorem save_then_load_roundtrip_witness :
    (readEventFile stR (some ("\x7b'1': [120, 340], '2': [200]\x7d"))).2 = ReadOutcome.ok ∧
    (readEventFile stR (some ("\x7b'1': [120, 340], '2': [200]\x7d"))).1.log.markers =
      stC1.log.markers ∧
    pyStrMarkers ((readEventFile stR
        (some ("\x7b'1': [120, 340], '2': [200]\x7d"))).1.log.markers) =
      ("\x7b'1': [120, 340], '2': [200]\x7d") :=
  save_then_load_roundtrip stC1 stR none true ("event-clip.txt")
    ("\x7b'1': [120, 340], '2': [200]\x7d") (by decide) (by decide) (by decide)
